import Mathlib

/-!
Shallow embedding of the GraphQL field-collection core (`graphql/exec.go`):
the data model (`CollectedField`, selections, directives, argument values)
and the operations `CollectFields` / `collectFields`, `getOrCreateField`,
`instanceOf`, `shouldIncludeNode`, `resolveIfArgument`, together with
theorems settling the spec claims about them.

Go's shared mutable `visited` map is threaded explicitly as a list of
fragment names that is returned alongside the grouped fields; Go panics
are modelled as `Except.error`.  The recursion is driven by a fuel
parameter so that the function is structurally recursive; the top-level
entry point `CollectFields` supplies a fuel that is proved sufficient
(`CollectFields_no_fuel_error`), so the fuel device never changes the
observable behaviour of the embedded code.
-/

/-- Runtime values, modelling the Go `interface{}` values stored in the
variable map and produced by evaluating argument literals. -/
inductive RVal where
  | vbool (b : Bool)
  | vint (n : Int)
  | vstr (s : String)
  | vnull
deriving DecidableEq, Repr

/-- The request's variable map (`map[string]interface{}` in Go),
modelled as an association list. -/
abbrev VarMap := List (String × RVal)

/-- AST argument/directive values, modelling `gqlparser`'s `ast.Value` at
the interface boundary used by `exec.go`: either a variable reference
(`ast.Variable` kind, with `Raw` holding the variable name) or a literal.
`badLit` stands for a literal whose evaluation fails, modelling the
error return of `ast.Value.Value`. -/
inductive GValue where
  | varRef (raw : String)
  | boolLit (b : Bool)
  | intLit (n : Int)
  | strLit (s : String)
  | nullLit
  | badLit (msg : String)
deriving DecidableEq, Repr

/-- Collection failures: each constructor models one `panic` site of
`exec.go` (or of the value evaluator it calls); `outOfFuel` is the
artefact of the fuel-driven recursion, proved unreachable from
`CollectFields`. -/
inductive CErr where
  | ifArgMissing (directive : String)
  | ifArgNotBool (directive : String)
  | valueError (msg : String)
  | missingFragment (name : String)
  | outOfFuel
deriving DecidableEq, Repr

/-- Evaluation of an AST value against the variable map, modelling
`ast.Value.Value(vars)`: a variable reference looks the name up and
yields the Go zero value `nil` (here `vnull`) when absent; literals
evaluate to themselves; `badLit` yields the evaluation error. -/
def GValue.value (v : GValue) (vars : VarMap) : Except CErr RVal :=
  match v with
  | .varRef raw =>
    match List.lookup raw vars with
    | some x => .ok x
    | none => .ok .vnull
  | .boolLit b => .ok (.vbool b)
  | .intLit n => .ok (.vint n)
  | .strLit s => .ok (.vstr s)
  | .nullLit => .ok .vnull
  | .badLit msg => .error (.valueError msg)

/-- One AST argument (`ast.Argument`): a name and a value. -/
structure Argument where
  name : String
  value : GValue
deriving DecidableEq, Repr

/-- One AST directive (`ast.Directive`): a name and an argument list. -/
structure Directive where
  name : String
  arguments : List Argument
deriving DecidableEq, Repr

/-- Lookup of the first argument with a given name, modelling
`ast.ArgumentList.ForName`. -/
def argumentsForName (args : List Argument) (n : String) : Option Argument :=
  args.find? (fun a => a.name == n)

/-- Lookup of the first directive with a given name, modelling
`ast.DirectiveList.ForName`. -/
def directivesForName (ds : List Directive) (n : String) : Option Directive :=
  ds.find? (fun d => d.name == n)

/-- AST selections (`ast.Selection`): a field, an inline fragment or a
fragment spread, with the components `exec.go` reads from each. -/
inductive Selection where
  | field (Alias Name : String) (Arguments : List Argument)
      (Directives : List Directive) (SelectionSet : List Selection)
  | inlineFragment (TypeCondition : String) (Directives : List Directive)
      (SelectionSet : List Selection)
  | fragmentSpread (Name : String) (Directives : List Directive)
deriving Repr

/-- The directive list of a selection node, as read by each case of the
`switch` in `collectFields`. -/
def Selection.directiveList : Selection → List Directive
  | .field _ _ _ ds _ => ds
  | .inlineFragment _ ds _ => ds
  | .fragmentSpread _ ds => ds

/-- A named fragment definition (`ast.FragmentDefinition`). -/
structure FragmentDefinition where
  Name : String
  TypeCondition : String
  SelectionSet : List Selection
deriving Repr

/-- The request context (`RequestContext`): the variable map and the
document's fragment list (`reqCtx.Doc.Fragments`). -/
structure RequestContext where
  Variables : VarMap
  Fragments : List FragmentDefinition
deriving Repr

/-- Fragment lookup by name, modelling `Doc.Fragments.ForName`. -/
def fragmentsForName (frags : List FragmentDefinition) (n : String) :
    Option FragmentDefinition :=
  frags.find? (fun g => g.Name == n)

/-- One node of the merged result (`CollectedField`): response key
(`Alias`), underlying field name, the (lazily computed) argument map —
`none` models Go's nil map — and the accumulated raw child selections. -/
structure CollectedField where
  Alias : String
  Name : String
  Args : Option (List (String × RVal))
  Selections : List Selection
deriving Repr

/-- Map insertion with replacement, modelling `f.Args[arg.Name] = val`
on the Go map (association list kept keyed uniquely). -/
def argInsert (m : List (String × RVal)) (k : String) (v : RVal) :
    List (String × RVal) :=
  match m with
  | [] => [(k, v)]
  | (k', v') :: rest =>
    if k' == k then (k, v) :: rest else (k', v') :: argInsert rest k v

/-- The `instanceOf` helper of `exec.go`: membership of a type name in
the satisfied-types list. -/
def instanceOf (val : String) (satisfies : List String) : Bool :=
  satisfies.any (fun s => val == s)

/-- The `resolveIfArgument` helper of `exec.go`: fetch the `if` argument
(missing is a panic), evaluate it (evaluation failure is a panic) and
require a boolean (anything else is a panic). -/
def resolveIfArgument (d : Directive) (vars : VarMap) : Except CErr Bool :=
  match argumentsForName d.arguments "if" with
  | none => .error (.ifArgMissing d.name)
  | some arg =>
    match arg.value.value vars with
    | .error e => .error e
    | .ok (.vbool b) => .ok b
    | .ok _ => .error (.ifArgNotBool d.name)

/-- The `shouldIncludeNode` helper of `exec.go`: `skip` wins when present,
else `include` is consulted, else the node is included. -/
def shouldIncludeNode (directives : List Directive) (vars : VarMap) :
    Except CErr Bool :=
  match directivesForName directives "skip" with
  | some d =>
    match resolveIfArgument d vars with
    | .error e => .error e
    | .ok b => .ok (!b)
  | none =>
    match directivesForName directives "include" with
    | some d => resolveIfArgument d vars
    | none => .ok true

/-- The argument-evaluation loop inside the field creator of
`collectFields` (lines 38–50 of `exec.go`): a variable-kind value is
looked up directly in the variable map and silently dropped when absent;
any other value is evaluated via `GValue.value`, whose failure aborts. -/
def fieldArgsLoop (vars : VarMap) (arguments : List Argument)
    (acc : List (String × RVal)) : Except CErr (List (String × RVal)) :=
  match arguments with
  | [] => .ok acc
  | arg :: rest =>
    match arg.value with
    | .varRef raw =>
      match List.lookup raw vars with
      | some val => fieldArgsLoop vars rest (argInsert acc arg.name val)
      | none => fieldArgsLoop vars rest acc
    | _ =>
      match arg.value.value vars with
      | .error e => .error e
      | .ok v => fieldArgsLoop vars rest (argInsert acc arg.name v)

/-- The argument block of the field creator: Go leaves `f.Args` as the
nil map (`none`) when the field has no arguments, and otherwise fills a
fresh map via the loop above. -/
def fieldArgs (vars : VarMap) (arguments : List Argument) :
    Except CErr (Option (List (String × RVal))) :=
  if arguments.length > 0 then
    match fieldArgsLoop vars arguments [] with
    | .error e => .error e
    | .ok m => .ok (some m)
  else
    .ok none

/-- The `getOrCreateField` helper of `exec.go`: scan the accumulated list
for an entry whose `Alias` equals `name`; return its index if found, else
run the creator (whose panics propagate) and append the new entry.  The
returned index models the Go pointer into the slice. -/
def getOrCreateField (c : List CollectedField) (name : String)
    (creator : Unit → Except CErr CollectedField) :
    Except CErr (List CollectedField × Nat) :=
  match c.findIdx? (fun cf => cf.Alias == name) with
  | some i => .ok (c, i)
  | none =>
    match creator () with
    | .error e => .error e
    | .ok f => .ok (c ++ [f], c.length)

/-- In-place update at an index, modelling the write through the pointer
returned by `getOrCreateField`. -/
def modifyAt (c : List CollectedField) (i : Nat)
    (g : CollectedField → CollectedField) : List CollectedField :=
  match c, i with
  | [], _ => []
  | x :: rest, 0 => g x :: rest
  | x :: rest, i + 1 => x :: modifyAt rest i g

/-- The inner merge loop of the inline-fragment and fragment-spread cases
of `collectFields`: each child field is looked up by its `Name` (the Go
code passes `childField.Name`, not the alias), a missing entry is created
as the child field itself, and then the child's selections are appended
through the returned pointer. -/
def mergeChildren (groupedFields : List CollectedField)
    (children : List CollectedField) : Except CErr (List CollectedField) :=
  match children with
  | [] => .ok groupedFields
  | childField :: rest =>
    match getOrCreateField groupedFields childField.Name
        (fun _ => .ok childField) with
    | .error e => .error e
    | .ok (c, i) =>
      mergeChildren
        (modifyAt c i
          (fun f => { f with Selections := f.Selections ++ childField.Selections }))
        rest

/-- The recursive worker `collectFields` of `exec.go`, with the loop over
the selection set unrolled into list recursion: `groupedFields` is the
accumulator local to one Go call (each recursive Go call starts from an
empty one), `visited` is the shared fragment-name guard, threaded in and
out.  `fuel` decreases on every recursive call; `CollectFields` below
supplies enough for it never to run out. -/
def collectFieldsAux (reqCtx : RequestContext) (satisfies : List String) :
    Nat → List Selection → List CollectedField → List String →
    Except CErr (List CollectedField × List String)
  | 0, _, _, _ => .error .outOfFuel
  | _ + 1, [], groupedFields, visited => .ok (groupedFields, visited)
  | fuel + 1, Selection.field a n arguments directives selectionSet :: rest,
      groupedFields, visited =>
    match shouldIncludeNode directives reqCtx.Variables with
    | .error e => .error e
    | .ok false => collectFieldsAux reqCtx satisfies fuel rest groupedFields visited
    | .ok true =>
      match getOrCreateField groupedFields a
          (fun _ =>
            match fieldArgs reqCtx.Variables arguments with
            | .error e => .error e
            | .ok args => .ok { Alias := a, Name := n, Args := args, Selections := [] }) with
      | .error e => .error e
      | .ok (c, i) =>
        collectFieldsAux reqCtx satisfies fuel rest
          (modifyAt c i (fun f => { f with Selections := f.Selections ++ selectionSet }))
          visited
  | fuel + 1, Selection.inlineFragment tc directives selectionSet :: rest,
      groupedFields, visited =>
    match shouldIncludeNode directives reqCtx.Variables with
    | .error e => .error e
    | .ok inc =>
      if !inc || !instanceOf tc satisfies then
        collectFieldsAux reqCtx satisfies fuel rest groupedFields visited
      else
        match collectFieldsAux reqCtx satisfies fuel selectionSet [] visited with
        | .error e => .error e
        | .ok (childFields, visited') =>
          match mergeChildren groupedFields childFields with
          | .error e => .error e
          | .ok groupedFields' =>
            collectFieldsAux reqCtx satisfies fuel rest groupedFields' visited'
  | fuel + 1, Selection.fragmentSpread fragmentName directives :: rest,
      groupedFields, visited =>
    match shouldIncludeNode directives reqCtx.Variables with
    | .error e => .error e
    | .ok false => collectFieldsAux reqCtx satisfies fuel rest groupedFields visited
    | .ok true =>
      if visited.contains fragmentName then
        collectFieldsAux reqCtx satisfies fuel rest groupedFields visited
      else
        match fragmentsForName reqCtx.Fragments fragmentName with
        | none => .error (.missingFragment fragmentName)
        | some fragment =>
          if !instanceOf fragment.TypeCondition satisfies then
            collectFieldsAux reqCtx satisfies fuel rest groupedFields
              (fragmentName :: visited)
          else
            match collectFieldsAux reqCtx satisfies fuel fragment.SelectionSet []
                (fragmentName :: visited) with
            | .error e => .error e
            | .ok (childFields, visited') =>
              match mergeChildren groupedFields childFields with
              | .error e => .error e
              | .ok groupedFields' =>
                collectFieldsAux reqCtx satisfies fuel rest groupedFields' visited'

mutual

/-- Size of one selection node, used to compute the fuel budget. -/
def Selection.size : Selection → Nat
  | .field _ _ _ _ sub => 1 + Selection.sizeList sub
  | .inlineFragment _ _ sub => 1 + Selection.sizeList sub
  | .fragmentSpread _ _ => 1

/-- Size of a selection set, used to compute the fuel budget. -/
def Selection.sizeList : List Selection → Nat
  | [] => 0
  | s :: rest => 1 + Selection.size s + Selection.sizeList rest

end

/-- Fuel budget covering one expansion of every fragment not yet visited. -/
def fragmentBudget (frags : List FragmentDefinition) (visited : List String) : Nat :=
  match frags with
  | [] => 0
  | g :: rest =>
    (if visited.contains g.Name then 0 else Selection.sizeList g.SelectionSet + 1)
      + fragmentBudget rest visited

/-- The exported `CollectFields` of `exec.go`: run the worker with an
empty visited set (and, in this embedding, a provably sufficient fuel),
returning the grouped fields. -/
def CollectFields (reqCtx : RequestContext) (selSet : List Selection)
    (satisfies : List String) : Except CErr (List CollectedField) :=
  match collectFieldsAux reqCtx satisfies
      (Selection.sizeList selSet + fragmentBudget reqCtx.Fragments [] + 1) selSet [] [] with
  | .error e => .error e
  | .ok (groupedFields, _) => .ok groupedFields

/-- Test for the fuel artefact among collection outcomes. -/
def isOutOfFuel {α : Type} : Except CErr α → Bool
  | .error .outOfFuel => true
  | _ => false

/-- A request context with no variables and no fragments. -/
def ctxEmpty : RequestContext := { Variables := [], Fragments := [] }

/-- A bare leaf field `b`. -/
def bField : Selection := .field "b" "b" [] [] []

/-- The selection set `{ x: a  ... on T { x: a } }`: the same valid
alias/name pair reached directly and through an inline fragment. -/
def dupKeySelSet : List Selection :=
  [ .field "x" "a" [] [] [],
    .inlineFragment "T" [] [ .field "x" "a" [] [] [ bField ] ] ]

/-- Fragment `A` on `T`, selecting field `a` and spreading `B`. -/
def fragA : FragmentDefinition :=
  { Name := "A", TypeCondition := "T",
    SelectionSet := [ .field "a" "a" [] [] [], .fragmentSpread "B" [] ] }

/-- Fragment `B` on `T`, selecting field `b`. -/
def fragB : FragmentDefinition :=
  { Name := "B", TypeCondition := "T",
    SelectionSet := [ .field "b" "b" [] [] [] ] }

/-- A document holding fragments `A` and `B`, where `A` spreads `B`. -/
def ctxAB : RequestContext := { Variables := [], Fragments := [fragA, fragB] }

/-- Fragment `C` whose type condition `X` is not satisfied below. -/
def fragC : FragmentDefinition :=
  { Name := "C", TypeCondition := "X",
    SelectionSet := [ .field "c" "c" [] [] [] ] }

/-- A document holding only the incompatible fragment `C`. -/
def ctxC : RequestContext := { Variables := [], Fragments := [fragC] }

/-- Fragment `A` of the mutual cycle: field `a`, then spreads `B`. -/
def fragCycA : FragmentDefinition :=
  { Name := "A", TypeCondition := "T",
    SelectionSet := [ .field "a" "a" [] [] [], .fragmentSpread "B" [] ] }

/-- Fragment `B` of the mutual cycle: field `b`, then spreads `A`. -/
def fragCycB : FragmentDefinition :=
  { Name := "B", TypeCondition := "T",
    SelectionSet := [ .field "b" "b" [] [] [], .fragmentSpread "A" [] ] }

/-- A document holding the mutually recursive fragments `A` and `B`. -/
def ctxCyc : RequestContext := { Variables := [], Fragments := [fragCycA, fragCycB] }

/-- A pre-existing collected entry with response key `x`, used to witness
the frame property of later merged occurrences. -/
def xEntry : CollectedField :=
  { Alias := "x", Name := "a", Args := some [("v", RVal.vint 1)], Selections := [] }

/-! ## Theorems -/

/-- C1: evaluation of the code at the failing input. Collecting the valid
selection set `{ x: a  ... on T { x: a { b } } }` with satisfied types
`[T]` returns two entries that both carry the response key `x`, because
the inline-fragment merge looks contributed fields up by their `Name`
(here `a`) instead of their response key (`x`): response-key uniqueness
and the claimed merge-by-response-key both fail on this input. -/
theorem c1_duplicate_response_keys :
    (CollectFields ctxEmpty dupKeySelSet ["T"]).map (fun l => l.map (fun f => f.Alias))
      = .ok ["x", "x"] := by
  rfl

/-- C2: evaluation of the code at the failing input. In the result for
`{ x: a  ... on T { x: a { b } } }`, the fragment's contribution is not
merged into the existing entry with response key `x` (the lookup uses the
contributed field's `Name`, `a`); it is inserted as a second entry, and
that fresh entry's child selections are `[b, b]` — the contribution's own
selection set appended to itself — instead of exactly `[b]`. -/
theorem c2_merge_keyed_by_name_and_doubled :
    CollectFields ctxEmpty dupKeySelSet ["T"]
      = .ok [ { Alias := "x", Name := "a", Args := none, Selections := [] },
              { Alias := "x", Name := "a", Args := none,
                Selections := [bField, bField] } ] := by
  rfl

/-- C4: the fragment guard. First, in general: a fragment spread whose
name is already in the visited set contributes nothing (one fuel tick is
the embedding's cost of skipping the node). Second, in the document where
fragment `A` spreads `B` and the same level also spreads `B` directly,
`B`'s field is collected exactly once. Third, a spread whose type
condition is incompatible still leaves its fragment name marked visited. -/
theorem c4_fragment_visited_guard :
    (∀ (reqCtx : RequestContext) (satisfies : List String) (fuel : Nat)
        (n : String) (ds : List Directive) (rest : List Selection)
        (gf : List CollectedField) (vis : List String),
      shouldIncludeNode ds reqCtx.Variables = .ok true →
      vis.contains n = true →
      collectFieldsAux reqCtx satisfies (fuel + 1)
          (.fragmentSpread n ds :: rest) gf vis
        = collectFieldsAux reqCtx satisfies fuel rest gf vis)
    ∧ CollectFields ctxAB [ .fragmentSpread "A" [], .fragmentSpread "B" [] ] ["T"]
        = .ok [ { Alias := "a", Name := "a", Args := none, Selections := [] },
                { Alias := "b", Name := "b", Args := none, Selections := [] } ]
    ∧ collectFieldsAux ctxC ["T"] 5 [ .fragmentSpread "C" [] ] [] []
        = .ok ([], ["C"]) := by
  refine ⟨?_, by rfl, by rfl⟩
  intro reqCtx satisfies fuel n ds rest gf vis hinc hvis
  simp only [collectFieldsAux, hinc, hvis, if_true]

/-- C4 witness: the general guard conjunct applied to a concrete visited
spread. -/
theorem c4_fragment_visited_guard_witness :
    collectFieldsAux ctxEmpty [] 3 [ .fragmentSpread "Z" [] ] [] ["Z"]
      = collectFieldsAux ctxEmpty [] 2 [] [] ["Z"] :=
  c4_fragment_visited_guard.1 ctxEmpty [] 2 "Z" [] [] [] ["Z"] rfl rfl

/-- Value evaluation never produces the fuel artefact. -/
theorem value_error_not_fuel (v : GValue) (vars : VarMap) (e : CErr)
    (h : GValue.value v vars = .error e) : e ≠ CErr.outOfFuel := by
  cases v <;> simp only [GValue.value] at h
  · split at h <;> simp_all
  all_goals simp_all
  intro hc
  subst h
  exact (by simp : CErr.valueError _ ≠ CErr.outOfFuel) (by rw [hc])

/-- Directive-condition resolution never produces the fuel artefact. -/
theorem resolveIfArgument_error_not_fuel (d : Directive) (vars : VarMap)
    (e : CErr) (h : resolveIfArgument d vars = .error e) :
    e ≠ CErr.outOfFuel := by
  simp only [resolveIfArgument] at h
  split at h
  · simp only [Except.error.injEq] at h
    subst h
    simp
  · split at h
    · rename_i heq
      have := value_error_not_fuel _ vars _ heq
      simp_all
    · simp_all
    · simp only [Except.error.injEq] at h
      subst h
      simp

/-- Inclusion filtering never produces the fuel artefact. -/
theorem shouldIncludeNode_error_not_fuel (ds : List Directive) (vars : VarMap)
    (e : CErr) (h : shouldIncludeNode ds vars = .error e) :
    e ≠ CErr.outOfFuel := by
  simp only [shouldIncludeNode] at h
  split at h
  · split at h
    · rename_i heq
      have := resolveIfArgument_error_not_fuel _ vars _ heq
      simp_all
    · simp_all
  · split at h
    · exact resolveIfArgument_error_not_fuel _ vars _ h
    · simp_all

/-- Argument evaluation never produces the fuel artefact. -/
theorem fieldArgsLoop_error_not_fuel (vars : VarMap) :
    ∀ (arguments : List Argument) (acc : List (String × RVal)) (e : CErr),
      fieldArgsLoop vars arguments acc = .error e → e ≠ CErr.outOfFuel := by
  intro arguments
  induction arguments with
  | nil => intro acc e h; simp [fieldArgsLoop] at h
  | cons arg rest ih =>
    intro acc e h
    simp only [fieldArgsLoop] at h
    split at h
    · split at h
      · exact ih _ _ h
      · exact ih _ _ h
    · split at h
      · rename_i heq
        have := value_error_not_fuel _ vars _ heq
        simp_all
      · exact ih _ _ h

/-- The argument block never produces the fuel artefact. -/
theorem fieldArgs_error_not_fuel (vars : VarMap) (arguments : List Argument)
    (e : CErr) (h : fieldArgs vars arguments = .error e) :
    e ≠ CErr.outOfFuel := by
  simp only [fieldArgs] at h
  split at h
  · split at h
    · rename_i heq
      have := fieldArgsLoop_error_not_fuel vars arguments [] _ heq
      simp_all
    · simp_all
  · simp_all

/-- A failing `getOrCreateField` call fails exactly as its creator does. -/
theorem getOrCreateField_error (c : List CollectedField) (name : String)
    (creator : Unit → Except CErr CollectedField) (e : CErr)
    (h : getOrCreateField c name creator = .error e) :
    creator () = .error e := by
  simp only [getOrCreateField] at h
  split at h
  · simp_all
  · split at h
    · simp_all
    · simp_all

/-- The child-merge loop never fails: its creators are pure. -/
theorem mergeChildren_ok (children : List CollectedField) :
    ∀ gf, ∃ r, mergeChildren gf children = .ok r := by
  induction children with
  | nil => intro gf; exact ⟨gf, rfl⟩
  | cons c rest ih =>
    intro gf
    cases hf : gf.findIdx? (fun cf => cf.Alias == c.Name) with
    | none => simp only [mergeChildren, getOrCreateField, hf]; exact ih _
    | some i => simp only [mergeChildren, getOrCreateField, hf]; exact ih _

/-- Along one invocation the visited set only grows: every name visited
on entry is still visited in the returned state. -/
theorem collectFieldsAux_visited_mono (reqCtx : RequestContext)
    (satisfies : List String) :
    ∀ (fuel : Nat) (selSet : List Selection) (gf fs : List CollectedField)
      (vis v' : List String),
      collectFieldsAux reqCtx satisfies fuel selSet gf vis = .ok (fs, v') →
      ∀ x, x ∈ vis → x ∈ v' := by
  intro fuel
  induction fuel with
  | zero =>
    intro selSet gf fs vis v' h
    simp [collectFieldsAux] at h
  | succ fuel ih =>
    intro selSet gf fs vis v' h
    cases selSet with
    | nil =>
      simp only [collectFieldsAux, Except.ok.injEq, Prod.mk.injEq] at h
      obtain ⟨-, h2⟩ := h
      subst h2
      exact fun x hx => hx
    | cons sel rest =>
      cases sel with
      | field a n arguments directives selectionSet =>
        simp only [collectFieldsAux] at h
        split at h
        · simp at h
        · exact ih _ _ _ _ _ h
        · split at h
          · simp at h
          · exact ih _ _ _ _ _ h
      | inlineFragment tc directives selectionSet =>
        simp only [collectFieldsAux] at h
        split at h
        · simp at h
        · split at h
          · exact ih _ _ _ _ _ h
          · split at h
            · simp at h
            · rename_i childFields visited' heqChild
              split at h
              · simp at h
              · intro x hx
                exact ih _ _ _ _ _ h x (ih _ _ _ _ _ heqChild x hx)
      | fragmentSpread fragmentName directives =>
        simp only [collectFieldsAux] at h
        split at h
        · simp at h
        · exact ih _ _ _ _ _ h
        · split at h
          · exact ih _ _ _ _ _ h
          · split at h
            · simp at h
            · split at h
              · intro x hx
                exact ih _ _ _ _ _ h x (List.mem_cons_of_mem _ hx)
              · split at h
                · simp at h
                · rename_i childFields visited' heqChild
                  split at h
                  · simp at h
                  · intro x hx
                    exact ih _ _ _ _ _ h x
                      (ih _ _ _ _ _ heqChild x (List.mem_cons_of_mem _ hx))

/-- Growing the visited set can only shrink the fuel budget. -/
theorem fragmentBudget_mono (frags : List FragmentDefinition)
    (vis vis' : List String) (hsub : ∀ x, x ∈ vis → x ∈ vis') :
    fragmentBudget frags vis' ≤ fragmentBudget frags vis := by
  induction frags with
  | nil => simp [fragmentBudget]
  | cons g rest ih =>
    have hcase : vis.contains g.Name = true → vis'.contains g.Name = true := by
      intro hc
      have := hsub g.Name (by simpa using hc)
      simpa using this
    by_cases hg : vis.contains g.Name = true
    · simp only [fragmentBudget, hg, hcase hg, if_true]
      simpa using ih
    · rw [Bool.not_eq_true] at hg
      by_cases hg' : vis'.contains g.Name = true
      · simp only [fragmentBudget, hg, hg']
        simp only [Bool.false_eq_true, if_false, if_true]
        omega
      · rw [Bool.not_eq_true] at hg'
        simp only [fragmentBudget, hg, hg']
        simp only [Bool.false_eq_true, if_false]
        omega

/-- Marking a found, unvisited fragment as visited frees at least that
fragment's share of the budget. -/
theorem fragmentBudget_found (frags : List FragmentDefinition)
    (n : String) (g : FragmentDefinition) (vis : List String)
    (hfind : fragmentsForName frags n = some g)
    (hnv : vis.contains n = false) :
    Selection.sizeList g.SelectionSet + 1 + fragmentBudget frags (n :: vis)
      ≤ fragmentBudget frags vis := by
  induction frags with
  | nil => simp [fragmentsForName] at hfind
  | cons h rest ih =>
    simp only [fragmentsForName, List.find?] at hfind
    by_cases hname : (h.Name == n) = true
    · rw [hname] at hfind
      simp only [Option.some.injEq] at hfind
      subst hfind
      have hn : h.Name = n := by simpa using hname
      have hmono := fragmentBudget_mono rest vis (n :: vis)
        (fun x hx => List.mem_cons_of_mem _ hx)
      simp only [fragmentBudget, List.contains_cons, hn, hnv, beq_self_eq_true,
        Bool.true_or, if_true, Bool.or_false, Bool.false_eq_true, if_false]
      omega
    · rw [Bool.not_eq_true] at hname
      rw [hname] at hfind
      have hrec := ih hfind
      simp only [fragmentBudget, List.contains_cons, hname, Bool.false_or]
      by_cases hh : vis.contains h.Name = true
      · simp only [hh, if_true]
        omega
      · rw [Bool.not_eq_true] at hh
        simp only [hh, Bool.false_eq_true, if_false]
        omega

/-- With fuel exceeding the size of the selection set plus the budget of
the not-yet-visited fragments, the fuel artefact is unreachable. -/
theorem collectFieldsAux_no_fuel (reqCtx : RequestContext)
    (satisfies : List String) :
    ∀ (fuel : Nat) (selSet : List Selection) (gf : List CollectedField)
      (vis : List String),
      Selection.sizeList selSet + fragmentBudget reqCtx.Fragments vis < fuel →
      collectFieldsAux reqCtx satisfies fuel selSet gf vis
        ≠ .error CErr.outOfFuel := by
  intro fuel
  induction fuel with
  | zero => intro selSet gf vis hlt; omega
  | succ fuel ih =>
    intro selSet gf vis hlt
    cases selSet with
    | nil => simp [collectFieldsAux]
    | cons sel rest =>
      cases sel with
      | field a n arguments directives selectionSet =>
        have hsz : Selection.sizeList
            (Selection.field a n arguments directives selectionSet :: rest)
            = 1 + (1 + Selection.sizeList selectionSet)
              + Selection.sizeList rest := by
          simp [Selection.sizeList, Selection.size]
        rw [hsz] at hlt
        intro hbad
        simp only [collectFieldsAux] at hbad
        split at hbad
        · rename_i e heq
          injection hbad with h1
          subst h1
          exact shouldIncludeNode_error_not_fuel _ _ _ heq rfl
        · exact ih _ _ _ (by omega) hbad
        · split at hbad
          · rename_i e heq
            injection hbad with h1
            subst h1
            have hc := getOrCreateField_error _ _ _ _ heq
            split at hc
            · rename_i e' heq'
              injection hc with h2
              subst h2
              exact fieldArgs_error_not_fuel _ _ _ heq' rfl
            · simp at hc
          · exact ih _ _ _ (by omega) hbad
      | inlineFragment tc directives selectionSet =>
        have hsz : Selection.sizeList
            (Selection.inlineFragment tc directives selectionSet :: rest)
            = 1 + (1 + Selection.sizeList selectionSet)
              + Selection.sizeList rest := by
          simp [Selection.sizeList, Selection.size]
        rw [hsz] at hlt
        intro hbad
        simp only [collectFieldsAux] at hbad
        split at hbad
        · rename_i e heq
          injection hbad with h1
          subst h1
          exact shouldIncludeNode_error_not_fuel _ _ _ heq rfl
        · split at hbad
          · exact ih _ _ _ (by omega) hbad
          · split at hbad
            · rename_i e heqc
              injection hbad with h1
              subst h1
              exact ih _ _ _ (by omega) heqc
            · rename_i childFields visited' heqc
              split at hbad
              · rename_i e heqm
                obtain ⟨r, hr⟩ := mergeChildren_ok childFields gf
                rw [hr] at heqm
                simp at heqm
              · rename_i gf' heqm
                have hvsub := collectFieldsAux_visited_mono reqCtx satisfies
                  fuel selectionSet [] childFields vis visited' heqc
                have hbm := fragmentBudget_mono reqCtx.Fragments vis visited' hvsub
                exact ih _ _ _ (by omega) hbad
      | fragmentSpread fragmentName directives =>
        have hsz : Selection.sizeList
            (Selection.fragmentSpread fragmentName directives :: rest)
            = 1 + 1 + Selection.sizeList rest := by
          simp [Selection.sizeList, Selection.size]
        rw [hsz] at hlt
        intro hbad
        simp only [collectFieldsAux] at hbad
        split at hbad
        · rename_i e heq
          injection hbad with h1
          subst h1
          exact shouldIncludeNode_error_not_fuel _ _ _ heq rfl
        · exact ih _ _ _ (by omega) hbad
        · split at hbad
          · exact ih _ _ _ (by omega) hbad
          · rename_i hnv
            rw [Bool.not_eq_true] at hnv
            split at hbad
            · simp at hbad
            · rename_i fragment hfind
              have hbf := fragmentBudget_found reqCtx.Fragments fragmentName
                fragment vis hfind hnv
              split at hbad
              · have hbm := fragmentBudget_mono reqCtx.Fragments vis
                  (fragmentName :: vis) (fun x hx => List.mem_cons_of_mem _ hx)
                exact ih _ _ _ (by omega) hbad
              · split at hbad
                · rename_i e heqc
                  injection hbad with h1
                  subst h1
                  exact ih _ _ _ (by omega) heqc
                · rename_i childFields visited' heqc
                  split at hbad
                  · rename_i e heqm
                    obtain ⟨r, hr⟩ := mergeChildren_ok childFields gf
                    rw [hr] at heqm
                    simp at heqm
                  · rename_i gf' heqm
                    have hvsub := collectFieldsAux_visited_mono reqCtx satisfies
                      fuel fragment.SelectionSet [] childFields
                      (fragmentName :: vis) visited' heqc
                    have hbm := fragmentBudget_mono reqCtx.Fragments vis visited'
                      (fun x hx => hvsub x (List.mem_cons_of_mem _ hx))
                    exact ih _ _ _ (by omega) hbad

/-- C5: collection terminates on every input — the fuel supplied by
`CollectFields` is always sufficient, so the embedding's fuel artefact is
unreachable — and on the mutually recursive document where fragment `A`
spreads `B` and `B` spreads `A`, collection over `[...A]` returns the two
non-recursive fields `a` and `b` exactly once each. -/
theorem c5_collection_terminates :
    (∀ (reqCtx : RequestContext) (selSet : List Selection)
        (satisfies : List String),
      isOutOfFuel (CollectFields reqCtx selSet satisfies) = false)
    ∧ CollectFields ctxCyc [ .fragmentSpread "A" [] ] ["T"]
        = .ok [ { Alias := "a", Name := "a", Args := none, Selections := [] },
                { Alias := "b", Name := "b", Args := none, Selections := [] } ] := by
  constructor
  · intro reqCtx selSet satisfies
    have h := collectFieldsAux_no_fuel reqCtx satisfies
      (Selection.sizeList selSet + fragmentBudget reqCtx.Fragments [] + 1)
      selSet [] [] (by omega)
    simp only [CollectFields]
    split
    · rename_i e heq
      cases e with
      | outOfFuel => exact absurd heq h
      | ifArgMissing d => rfl
      | ifArgNotBool d => rfl
      | valueError m => rfl
      | missingFragment n => rfl
    · rfl
  · rfl

/-- C6: an inline fragment whose declared type condition is not among the
satisfied types is skipped entirely — collection continues with the rest
of the selection set unchanged, so none of the subtree's fields appear
(one fuel tick is the embedding's cost of skipping the node). -/
theorem c6_inline_fragment_type_condition_skip
    (reqCtx : RequestContext) (satisfies : List String) (fuel : Nat)
    (tc : String) (directives : List Directive)
    (selectionSet rest : List Selection) (gf : List CollectedField)
    (vis : List String) (b : Bool)
    (hinc : shouldIncludeNode directives reqCtx.Variables = .ok b)
    (hsat : instanceOf tc satisfies = false) :
    collectFieldsAux reqCtx satisfies (fuel + 1)
        (.inlineFragment tc directives selectionSet :: rest) gf vis
      = collectFieldsAux reqCtx satisfies fuel rest gf vis := by
  simp only [collectFieldsAux, hinc, hsat, Bool.not_false, Bool.or_true, if_true]

/-- C6 witness: an inline fragment on `Dog` is dropped when only `Cat` is
satisfied. -/
theorem c6_inline_fragment_type_condition_skip_witness :
    collectFieldsAux ctxEmpty ["Cat"] 3
        [ .inlineFragment "Dog" [] [ .field "nm" "nm" [] [] [] ] ] [] []
      = collectFieldsAux ctxEmpty ["Cat"] 2 [] [] [] :=
  c6_inline_fragment_type_condition_skip ctxEmpty ["Cat"] 2 "Dog" []
    [ .field "nm" "nm" [] [] [] ] [] [] [] true rfl rfl

/-- An update that leaves `Args` alone leaves the `Args` of every entry of
the list alone. -/
theorem modifyAt_map_args (g : CollectedField → CollectedField)
    (hg : ∀ f, (g f).Args = f.Args) :
    ∀ (gf : List CollectedField) (i : Nat),
      (modifyAt gf i g).map (fun f => f.Args) = gf.map (fun f => f.Args) := by
  intro gf
  induction gf with
  | nil => intro i; rfl
  | cons x rest ih =>
    intro i
    cases i with
    | zero => simp [modifyAt, hg]
    | succ j => simp [modifyAt, ih j]

/-- C7: when an entry with the field's response key already exists, the
field-processing step only appends the node's selection set through the
existing entry — the occurrence's `arguments` expression plays no role in
the outcome (it is never evaluated), and the `Args` of every entry of the
accumulated list are left unchanged. -/
theorem c7_later_occurrence_args_untouched
    (reqCtx : RequestContext) (satisfies : List String) (fuel : Nat)
    (a n : String) (arguments : List Argument) (directives : List Directive)
    (selectionSet rest : List Selection) (gf : List CollectedField)
    (vis : List String) (i : Nat)
    (hinc : shouldIncludeNode directives reqCtx.Variables = .ok true)
    (hfound : gf.findIdx? (fun cf => cf.Alias == a) = some i) :
    collectFieldsAux reqCtx satisfies (fuel + 1)
        (.field a n arguments directives selectionSet :: rest) gf vis
      = collectFieldsAux reqCtx satisfies fuel rest
          (modifyAt gf i
            (fun f => { f with Selections := f.Selections ++ selectionSet })) vis
    ∧ (modifyAt gf i
          (fun f => { f with Selections := f.Selections ++ selectionSet })).map
        (fun f => f.Args)
      = gf.map (fun f => f.Args) := by
  constructor
  · simp only [collectFieldsAux, hinc, getOrCreateField, hfound]
  · exact modifyAt_map_args
      (fun f => { f with Selections := f.Selections ++ selectionSet })
      (fun f => rfl) gf i

/-- C7 witness: a second occurrence with an argument list that would even
fail to evaluate is merged without touching the stored arguments. -/
theorem c7_later_occurrence_args_untouched_witness :
    collectFieldsAux ctxEmpty ["T"] 4
        [ .field "x" "a" [ { name := "k", value := .badLit "boom" } ] [] [] ]
        [ xEntry ] []
      = collectFieldsAux ctxEmpty ["T"] 3 []
          (modifyAt [ xEntry ] 0
            (fun f => { f with Selections := f.Selections ++ [] })) []
    ∧ (modifyAt [ xEntry ] 0
          (fun f => { f with Selections := f.Selections ++ [] })).map
        (fun f => f.Args)
      = [ xEntry ].map (fun f => f.Args) :=
  c7_later_occurrence_args_untouched ctxEmpty ["T"] 3 "x" "a"
    [ { name := "k", value := .badLit "boom" } ] [] [] []
    [ xEntry ] [] 0 rfl rfl

/-- C8: an argument whose value is a variable reference that is absent
from the variable map contributes nothing: the evaluation loop continues
with the remaining arguments and the same accumulator (no entry, no
error); and a field whose only argument is such a variable ends up with
an empty — not nil, not null-valued — argument map. -/
theorem c8_unbound_variable_argument_omitted
    (vars : VarMap) (nm raw : String) (rest : List Argument)
    (acc : List (String × RVal))
    (h : List.lookup raw vars = none) :
    fieldArgsLoop vars ({ name := nm, value := .varRef raw } :: rest) acc
      = fieldArgsLoop vars rest acc
    ∧ fieldArgs vars [ { name := nm, value := .varRef raw } ] = .ok (some []) := by
  constructor
  · simp only [fieldArgsLoop, h]
  · simp [fieldArgs, fieldArgsLoop, h]

/-- C8 witness: the variable `$v` is absent from the empty variable map. -/
theorem c8_unbound_variable_argument_omitted_witness :
    (fieldArgsLoop [] [ { name := "k", value := .varRef "v" },
        { name := "j", value := .boolLit true } ] []
      = fieldArgsLoop [] [ { name := "j", value := .boolLit true } ] [])
    ∧ fieldArgs [] [ { name := "k", value := .varRef "v" } ] = .ok (some []) :=
  c8_unbound_variable_argument_omitted []
    "k" "v" [ { name := "j", value := .boolLit true } ] [] rfl

/-- C9: a `skip` or `include` directive whose `if` argument is missing or
does not evaluate to a boolean makes the whole collection abort with that
error: missing `if` and non-boolean `if` each fail `resolveIfArgument`,
such a failure on the first matching `skip` (or, absent `skip`, the first
`include`) directive fails `shouldIncludeNode`, and a node whose
`shouldIncludeNode` fails makes `collectFields` return exactly that error
(no partial result, no silent skip). -/
theorem c9_malformed_directive_aborts :
    (∀ (d : Directive) (vars : VarMap),
      argumentsForName d.arguments "if" = none →
      resolveIfArgument d vars = .error (.ifArgMissing d.name))
    ∧ (∀ (d : Directive) (vars : VarMap) (arg : Argument) (v : RVal),
      argumentsForName d.arguments "if" = some arg →
      arg.value.value vars = .ok v →
      (∀ b, v ≠ RVal.vbool b) →
      resolveIfArgument d vars = .error (.ifArgNotBool d.name))
    ∧ (∀ (ds : List Directive) (vars : VarMap) (d : Directive) (e : CErr),
      directivesForName ds "skip" = some d →
      resolveIfArgument d vars = .error e →
      shouldIncludeNode ds vars = .error e)
    ∧ (∀ (ds : List Directive) (vars : VarMap) (d : Directive) (e : CErr),
      directivesForName ds "skip" = none →
      directivesForName ds "include" = some d →
      resolveIfArgument d vars = .error e →
      shouldIncludeNode ds vars = .error e)
    ∧ (∀ (reqCtx : RequestContext) (satisfies : List String) (fuel : Nat)
        (sel : Selection) (rest : List Selection) (gf : List CollectedField)
        (vis : List String) (e : CErr),
      shouldIncludeNode sel.directiveList reqCtx.Variables = .error e →
      collectFieldsAux reqCtx satisfies (fuel + 1) (sel :: rest) gf vis
        = .error e) := by
  refine ⟨?_, ?_, ?_, ?_, ?_⟩
  · intro d vars h
    simp only [resolveIfArgument, h]
  · intro d vars arg v harg hval hnb
    cases v with
    | vbool b => exact absurd rfl (hnb b)
    | vint n => simp only [resolveIfArgument, harg, hval]
    | vstr s => simp only [resolveIfArgument, harg, hval]
    | vnull => simp only [resolveIfArgument, harg, hval]
  · intro ds vars d e hskip hres
    simp only [shouldIncludeNode, hskip, hres]
  · intro ds vars d e hskip hincl hres
    simp only [shouldIncludeNode, hskip, hincl, hres]
  · intro reqCtx satisfies fuel sel rest gf vis e h
    cases sel with
    | field a n arguments directives selectionSet =>
      simp only [Selection.directiveList] at h
      simp only [collectFieldsAux, h]
    | inlineFragment tc directives selectionSet =>
      simp only [Selection.directiveList] at h
      simp only [collectFieldsAux, h]
    | fragmentSpread fragmentName directives =>
      simp only [Selection.directiveList] at h
      simp only [collectFieldsAux, h]

/-- C9 witness: a field carrying a `skip` directive with no `if` argument
aborts the collection with the missing-argument error. -/
theorem c9_malformed_directive_aborts_witness :
    collectFieldsAux ctxEmpty [] 1
        [ .field "x" "x" [] [ { name := "skip", arguments := [] } ] [] ] [] []
      = .error (.ifArgMissing "skip") :=
  c9_malformed_directive_aborts.2.2.2.2 ctxEmpty [] 0
    (.field "x" "x" [] [ { name := "skip", arguments := [] } ] []) [] [] []
    (.ifArgMissing "skip") rfl

/-- The `instanceOf` scan coincides with list membership of the type name. -/
theorem instanceOf_contains (val : String) (sat : List String) :
    instanceOf val sat = sat.contains val := by
  induction sat with
  | nil => rfl
  | cons s rest ih =>
    simp only [instanceOf, List.any_cons, List.contains_cons] at *
    rw [ih]

/-- C10: an inline fragment whose type condition is the empty string gets
no special treatment: its subtree is expanded exactly when `""` is itself
a member of the satisfied-types list, and skipped otherwise. -/
theorem c10_empty_type_condition_not_special
    (reqCtx : RequestContext) (satisfies : List String) (fuel : Nat)
    (directives : List Directive) (selectionSet rest : List Selection)
    (gf : List CollectedField) (vis : List String) (b : Bool)
    (hinc : shouldIncludeNode directives reqCtx.Variables = .ok b) :
    collectFieldsAux reqCtx satisfies (fuel + 1)
        (.inlineFragment "" directives selectionSet :: rest) gf vis
      = if b && satisfies.contains "" then
          match collectFieldsAux reqCtx satisfies fuel selectionSet [] vis with
          | .error e => .error e
          | .ok (childFields, visited') =>
            match mergeChildren gf childFields with
            | .error e => .error e
            | .ok groupedFields' =>
              collectFieldsAux reqCtx satisfies fuel rest groupedFields' visited'
        else collectFieldsAux reqCtx satisfies fuel rest gf vis := by
  cases b with
  | false => simp [collectFieldsAux, hinc]
  | true =>
    cases hc : satisfies.contains "" with
    | false =>
      have hio : instanceOf "" satisfies = false := by
        rw [instanceOf_contains]; exact hc
      simp [collectFieldsAux, hinc, hio]
    | true =>
      have hio : instanceOf "" satisfies = true := by
        rw [instanceOf_contains]; exact hc
      simp [collectFieldsAux, hinc, hio, hc]

/-- C10 witness: with satisfied types `[Cat]` the empty-condition inline
fragment reduces to the not-contained branch. -/
theorem c10_empty_type_condition_not_special_witness :
    collectFieldsAux ctxEmpty ["Cat"] 2
        [ .inlineFragment "" [] [ .field "d" "d" [] [] [] ] ] [] []
      = if true && (["Cat"].contains "") then
          match collectFieldsAux ctxEmpty ["Cat"] 1
              [ .field "d" "d" [] [] [] ] [] [] with
          | .error e => .error e
          | .ok (childFields, visited') =>
            match mergeChildren [] childFields with
            | .error e => .error e
            | .ok groupedFields' =>
              collectFieldsAux ctxEmpty ["Cat"] 1 [] groupedFields' visited'
        else collectFieldsAux ctxEmpty ["Cat"] 1 [] [] [] :=
  c10_empty_type_condition_not_special ctxEmpty ["Cat"] 1 []
    [ .field "d" "d" [] [] [] ] [] [] [] true rfl

/-- Two sibling fields sharing a response key collapse into one entry at
any sufficient fuel: the first occurrence fixes name and arguments and
contributes its selections, the second only appends its selections. -/
theorem collect_two_sibling_fields (reqCtx : RequestContext)
    (satisfies : List String) (a n1 n2 : String)
    (args1 args2 : List Argument) (s1 s2 : List Selection)
    (m : Option (List (String × RVal))) (vis : List String)
    (hargs : fieldArgs reqCtx.Variables args1 = .ok m) :
    ∀ fuel : Nat,
      collectFieldsAux reqCtx satisfies (fuel + 3)
          [ .field a n1 args1 [] s1, .field a n2 args2 [] s2 ] [] vis
        = .ok ([ { Alias := a, Name := n1, Args := m,
                   Selections := s1 ++ s2 } ], vis) := by
  intro fuel
  simp only [collectFieldsAux, shouldIncludeNode, directivesForName,
    List.find?_nil, getOrCreateField, List.findIdx?_nil, List.findIdx?_cons,
    hargs, modifyAt, beq_self_eq_true, List.nil_append, if_true,
    List.length_nil]

/-- C3: two sibling field selections with the same response key produce a
single collected field whose child selections are the concatenation, in
encounter order, of the two occurrences' selection sets (name and
arguments coming from the first occurrence). -/
theorem c3_sibling_same_alias_merged (reqCtx : RequestContext)
    (satisfies : List String) (a n1 n2 : String)
    (args1 args2 : List Argument) (s1 s2 : List Selection)
    (m : Option (List (String × RVal)))
    (hargs : fieldArgs reqCtx.Variables args1 = .ok m) :
    CollectFields reqCtx
        [ .field a n1 args1 [] s1, .field a n2 args2 [] s2 ] satisfies
      = .ok [ { Alias := a, Name := n1, Args := m,
                Selections := s1 ++ s2 } ] := by
  have hsz : Selection.sizeList
        [ Selection.field a n1 args1 [] s1, Selection.field a n2 args2 [] s2 ]
        + fragmentBudget reqCtx.Fragments [] + 1
      = (Selection.sizeList s1 + Selection.sizeList s2
          + fragmentBudget reqCtx.Fragments [] + 2) + 3 := by
    simp only [Selection.sizeList, Selection.size]
    omega
  simp only [CollectFields]
  rw [hsz, collect_two_sibling_fields reqCtx satisfies a n1 n2 args1 args2
    s1 s2 m [] hargs _]

/-- C3 witness: `{ x: a { b }  x: a }` collapses into one entry keyed
`x` with the concatenated child selections. -/
theorem c3_sibling_same_alias_merged_witness :
    CollectFields ctxEmpty
        [ .field "x" "a" [] [] [ bField ], .field "x" "a" [] [] [] ] ["T"]
      = .ok [ { Alias := "x", Name := "a", Args := none,
                Selections := [ bField ] ++ [] } ] :=
  c3_sibling_same_alias_merged ctxEmpty ["T"] "x" "a" "a" [] [] [ bField ] []
    none rfl
